import Mathlib

/-!
Verification of the `dm-data-type-converter` command-line utility
(`src/main.py`) against its specification.

The program is a single stateless class `DataTypeConverter` with four
operations — `to_hex`, `to_base64`, `to_md5`, `randomly_convert` — and a
CLI `main` that parses a value and a method name, dispatches, and prints
the result or an error.  This file is a shallow embedding of that code:

* Python values relevant to the program are the type `Value`
  (an integer, a text string, or `None` standing for any non-int,
  non-str input kind);
* Python exceptions become `Except PyErr`;
* the standard library primitives the code calls — built-in `hex()`,
  `str.encode('utf-8')`, `bytes.hex()`, `base64.b64encode`,
  `hashlib.md5(...).hexdigest()`, built-in `int()` on a string,
  `random.choice` — are embedded by their documented semantics
  (`random.choice` as an explicit `Fin 3` choice parameter);
* the inverse directions needed by the round-trip claims (base64
  decoding, UTF-8 decoding, hex parsing) are independent decoders
  written from the standard definitions of those encodings.

Python `str` is modelled as Lean `String`, i.e. as sequences of Unicode
scalar values; Python's `int()` digit parsing is modelled for ASCII
digits (with sign, surrounding whitespace and underscore separators).
-/

/- ### Hexadecimal rendering (Python built-in `hex()` and `bytes.hex()`) -/

/-- A lowercase hexadecimal digit character for a value below 16. -/
def hexDigit (n : Nat) : Char :=
  if n < 10 then Char.ofNat (48 + n) else Char.ofNat (87 + n)

/-- Hex digits of a positive natural, most significant first; fuel-driven
(any fuel at least the number is enough, the top-level caller passes the
number itself). -/
def hexDigitsAux : Nat → Nat → List Char
  | 0, _ => []
  | fuel + 1, n =>
    if n = 0 then [] else hexDigitsAux fuel (n / 16) ++ [hexDigit (n % 16)]

/-- Lowercase hexadecimal digit string of a natural number, as Python
renders the magnitude of an integer inside `hex()`. -/
def natToHex (n : Nat) : String :=
  if n = 0 then "0" else String.mk (hexDigitsAux n n)

/-- Embedding of Python's built-in `hex()` on an arbitrary integer
(`src/main.py` line 39): `0x` plus lowercase digits, with a leading minus
sign for negative input. -/
def pyHexInt (n : Int) : String :=
  if n < 0 then "-0x" ++ natToHex n.natAbs else "0x" ++ natToHex n.natAbs

/- ### UTF-8 encoding (Python `str.encode('utf-8')`) -/

/-- UTF-8 encoding of a single Unicode scalar value, as a list of byte
values. -/
def utf8EncodeChar (c : Char) : List Nat :=
  let n := c.toNat
  if n < 0x80 then [n]
  else if n < 0x800 then [0xC0 + n / 64, 0x80 + n % 64]
  else if n < 0x10000 then [0xE0 + n / 4096, 0x80 + n / 64 % 64, 0x80 + n % 64]
  else [0xF0 + n / 262144, 0x80 + n / 4096 % 64, 0x80 + n / 64 % 64, 0x80 + n % 64]

/-- UTF-8 encoding of a list of Unicode scalar values. -/
def utf8EncodeList : List Char → List Nat
  | [] => []
  | c :: cs => utf8EncodeChar c ++ utf8EncodeList cs

/-- Embedding of Python's `str.encode` with the utf-8 codec. -/
def utf8Encode (s : String) : List Nat := utf8EncodeList s.data

/-- Two lowercase hex digits per byte, contiguous: the characters produced
by Python's `bytes.hex()`. -/
def bytesToHexChars : List Nat → List Char
  | [] => []
  | b :: bs => hexDigit (b / 16) :: hexDigit (b % 16) :: bytesToHexChars bs

/-- Embedding of Python's `bytes.hex()`. -/
def bytesToHex (bs : List Nat) : String := String.mk (bytesToHexChars bs)

/- ### Base64 encoding (Python `base64.b64encode`) -/

/-- Character of the standard base64 alphabet at an index below 64
(RFC 4648). -/
def b64Char (n : Nat) : Char :=
  if n < 26 then Char.ofNat (65 + n)
  else if n < 52 then Char.ofNat (97 + (n - 26))
  else if n < 62 then Char.ofNat (48 + (n - 52))
  else if n = 62 then '+' else '/'

/-- Standard base64 encoding with padding of a byte list (RFC 4648), as
performed by Python's `base64.b64encode` (`src/main.py` line 69). -/
def b64EncodeList : List Nat → List Char
  | [] => []
  | [b1] => [b64Char (b1 / 4), b64Char (b1 % 4 * 16), '=', '=']
  | [b1, b2] => [b64Char (b1 / 4), b64Char (b1 % 4 * 16 + b2 / 16), b64Char (b2 % 16 * 4), '=']
  | b1 :: b2 :: b3 :: bs =>
    b64Char (b1 / 4) :: b64Char (b1 % 4 * 16 + b2 / 16) ::
      b64Char (b2 % 16 * 4 + b3 / 64) :: b64Char (b3 % 64) :: b64EncodeList bs

/- ### MD5 (Python `hashlib.md5(...).hexdigest()`), RFC 1321 -/

/-- The 64 MD5 round constants of RFC 1321. -/
def md5K : List Nat :=
  [0xd76aa478, 0xe8c7b756, 0x242070db, 0xc1bdceee,
   0xf57c0faf, 0x4787c62a, 0xa8304613, 0xfd469501,
   0x698098d8, 0x8b44f7af, 0xffff5bb1, 0x895cd7be,
   0x6b901122, 0xfd987193, 0xa679438e, 0x49b40821,
   0xf61e2562, 0xc040b340, 0x265e5a51, 0xe9b6c7aa,
   0xd62f105d, 0x02441453, 0xd8a1e681, 0xe7d3fbc8,
   0x21e1cde6, 0xc33707d6, 0xf4d50d87, 0x455a14ed,
   0xa9e3e905, 0xfcefa3f8, 0x676f02d9, 0x8d2a4c8a,
   0xfffa3942, 0x8771f681, 0x6d9d6122, 0xfde5380c,
   0xa4beea44, 0x4bdecfa9, 0xf6bb4b60, 0xbebfbc70,
   0x289b7ec6, 0xeaa127fa, 0xd4ef3085, 0x04881d05,
   0xd9d4d039, 0xe6db99e5, 0x1fa27cf8, 0xc4ac5665,
   0xf4292244, 0x432aff97, 0xab9423a7, 0xfc93a039,
   0x655b59c3, 0x8f0ccc92, 0xffeff47d, 0x85845dd1,
   0x6fa87e4f, 0xfe2ce6e0, 0xa3014314, 0x4e0811a1,
   0xf7537e82, 0xbd3af235, 0x2ad7d2bb, 0xeb86d391]

/-- The 64 per-operation left-rotation amounts of RFC 1321. -/
def md5S : List Nat :=
  [7, 12, 17, 22, 7, 12, 17, 22, 7, 12, 17, 22, 7, 12, 17, 22,
   5, 9, 14, 20, 5, 9, 14, 20, 5, 9, 14, 20, 5, 9, 14, 20,
   4, 11, 16, 23, 4, 11, 16, 23, 4, 11, 16, 23, 4, 11, 16, 23,
   6, 10, 15, 21, 6, 10, 15, 21, 6, 10, 15, 21, 6, 10, 15, 21]

/-- Left rotation of a 32-bit word held as a natural number below 2^32. -/
def rotl32 (x s : Nat) : Nat := (x * 2 ^ s + x / 2 ^ (32 - s)) % 4294967296

/-- Bitwise complement of a 32-bit word held as a natural number below
2^32. -/
def not32 (x : Nat) : Nat := 4294967295 - x

/-- MD5 padding: a 0x80 byte, zeros up to 56 mod 64, then the bit length
in 8 little-endian bytes. -/
def md5Pad (msg : List Nat) : List Nat :=
  let len := msg.length
  let zeros := (119 - len % 64) % 64
  let bitLen := len * 8
  msg ++ [0x80] ++ List.replicate zeros 0 ++
    [bitLen % 256, bitLen / 256 % 256, bitLen / 65536 % 256, bitLen / 16777216 % 256,
     bitLen / 4294967296 % 256, bitLen / 1099511627776 % 256,
     bitLen / 281474976710656 % 256, bitLen / 72057594037927936 % 256]

/-- The sixteen 32-bit little-endian message words of one 64-byte block. -/
def md5Words (block : List Nat) : List Nat :=
  (List.range 16).map fun j =>
    block.getD (4 * j) 0 + 256 * block.getD (4 * j + 1) 0 +
      65536 * block.getD (4 * j + 2) 0 + 16777216 * block.getD (4 * j + 3) 0

/-- One of the 64 MD5 operations on a state (a, b, c, d), with operation
index i and message words x. -/
def md5Op (x : List Nat) (st : Nat × Nat × Nat × Nat) (i : Nat) : Nat × Nat × Nat × Nat :=
  let (a, b, c, d) := st
  let f :=
    if i < 16 then b.land c |>.lor ((not32 b).land d)
    else if i < 32 then d.land b |>.lor ((not32 d).land c)
    else if i < 48 then b.xor c |>.xor d
    else c.xor (b.lor (not32 d))
  let g :=
    if i < 16 then i
    else if i < 32 then (5 * i + 1) % 16
    else if i < 48 then (3 * i + 5) % 16
    else 7 * i % 16
  let tmp := (f + a + md5K.getD i 0 + x.getD g 0) % 4294967296
  (d, (b + rotl32 tmp (md5S.getD i 0)) % 4294967296, b, c)

/-- Process one 64-byte block, updating the four-word MD5 state. -/
def md5Block (st : Nat × Nat × Nat × Nat) (block : List Nat) : Nat × Nat × Nat × Nat :=
  let x := md5Words block
  let (a, b, c, d) := List.foldl (md5Op x) st (List.range 64)
  let (a0, b0, c0, d0) := st
  ((a0 + a) % 4294967296, (b0 + b) % 4294967296, (c0 + c) % 4294967296, (d0 + d) % 4294967296)

/-- Split a padded message into 64-byte blocks; fuel-driven. -/
def md5Blocks : Nat → List Nat → List (List Nat)
  | 0, _ => []
  | _, [] => []
  | fuel + 1, bs => bs.take 64 :: md5Blocks fuel (bs.drop 64)

/-- The four bytes of a 32-bit word, little-endian. -/
def wordLEBytes (w : Nat) : List Nat :=
  [w % 256, w / 256 % 256, w / 65536 % 256, w / 16777216 % 256]

/-- The 16-byte MD5 digest of a byte list (RFC 1321). -/
def md5Digest (msg : List Nat) : List Nat :=
  let padded := md5Pad msg
  let (a, b, c, d) :=
    (md5Blocks padded.length padded).foldl md5Block
      (0x67452301, 0xefcdab89, 0x98badcfe, 0x10325476)
  wordLEBytes a ++ wordLEBytes b ++ wordLEBytes c ++ wordLEBytes d

/- ### Decoders, written from the standard definitions of the encodings
(the round-trip and well-formedness claims compare the code's encoders
against these independent inverses). -/

/-- Value of a character of the standard base64 alphabet; `none` for any
other character. -/
def b64CharVal (c : Char) : Option Nat :=
  let n := c.toNat
  if 65 ≤ n ∧ n ≤ 90 then some (n - 65)
  else if 97 ≤ n ∧ n ≤ 122 then some (n - 97 + 26)
  else if 48 ≤ n ∧ n ≤ 57 then some (n - 48 + 52)
  else if c = '+' then some 62
  else if c = '/' then some 63
  else none

/-- Standard base64 decoding with padding (RFC 4648), four characters at
a time. -/
def b64DecodeList : List Char → Option (List Nat)
  | [] => some []
  | c1 :: c2 :: c3 :: c4 :: rest =>
    match b64CharVal c1, b64CharVal c2 with
    | some v1, some v2 =>
      if c3 = '=' then
        if c4 = '=' ∧ rest = [] then some [v1 * 4 + v2 / 16] else none
      else
        match b64CharVal c3 with
        | some v3 =>
          if c4 = '=' then
            if rest = [] then some [v1 * 4 + v2 / 16, v2 % 16 * 16 + v3 / 4] else none
          else
            match b64CharVal c4, b64DecodeList rest with
            | some v4, some r =>
              some ((v1 * 4 + v2 / 16) :: (v2 % 16 * 16 + v3 / 4) :: (v3 % 4 * 64 + v4) :: r)
            | _, _ => none
        | none => none
    | _, _ => none
  | _ => none

/-- Strict UTF-8 decoding of a byte list into Unicode scalar values;
fuel-driven, rejecting truncated sequences, bad continuation bytes,
overlong forms, surrogates and out-of-range values. -/
def utf8DecodeAux : Nat → List Nat → Option (List Char)
  | _, [] => some []
  | 0, _ :: _ => none
  | fuel + 1, b :: rest =>
    if b < 0x80 then (utf8DecodeAux fuel rest).map (Char.ofNat b :: ·)
    else if b < 0xC0 then none
    else if b < 0xE0 then
      match rest with
      | b2 :: rest2 =>
        if 0x80 ≤ b2 ∧ b2 < 0xC0 then
          let n := (b - 0xC0) * 64 + (b2 - 0x80)
          if 0x80 ≤ n then (utf8DecodeAux fuel rest2).map (Char.ofNat n :: ·) else none
        else none
      | _ => none
    else if b < 0xF0 then
      match rest with
      | b2 :: b3 :: rest3 =>
        if 0x80 ≤ b2 ∧ b2 < 0xC0 ∧ 0x80 ≤ b3 ∧ b3 < 0xC0 then
          let n := (b - 0xE0) * 4096 + (b2 - 0x80) * 64 + (b3 - 0x80)
          if 0x800 ≤ n ∧ ¬(0xD800 ≤ n ∧ n < 0xE000) then
            (utf8DecodeAux fuel rest3).map (Char.ofNat n :: ·)
          else none
        else none
      | _ => none
    else if b < 0xF8 then
      match rest with
      | b2 :: b3 :: b4 :: rest4 =>
        if 0x80 ≤ b2 ∧ b2 < 0xC0 ∧ 0x80 ≤ b3 ∧ b3 < 0xC0 ∧ 0x80 ≤ b4 ∧ b4 < 0xC0 then
          let n := (b - 0xF0) * 262144 + (b2 - 0x80) * 4096 + (b3 - 0x80) * 64 + (b4 - 0x80)
          if 0x10000 ≤ n ∧ n < 0x110000 then
            (utf8DecodeAux fuel rest4).map (Char.ofNat n :: ·)
          else none
        else none
      | _ => none
    else none

/-- Strict UTF-8 decoding of a byte list into text. -/
def utf8Decode (bs : List Nat) : Option String :=
  (utf8DecodeAux bs.length bs).map String.mk

/-- Value of a lowercase hexadecimal digit character; `none` for any
other character. -/
def hexCharVal (c : Char) : Option Nat :=
  let n := c.toNat
  if 48 ≤ n ∧ n ≤ 57 then some (n - 48)
  else if 97 ≤ n ∧ n ≤ 102 then some (n - 97 + 10)
  else none

/-- A lowercase hexadecimal digit character, as a Boolean predicate. -/
def isLowerHex (c : Char) : Bool := (hexCharVal c).isSome

/-- Decode a contiguous even-length hex digit string back into its byte
list; `none` on odd length or a non-hex character. -/
def hexPairsDecode : List Char → Option (List Nat)
  | [] => some []
  | c1 :: c2 :: rest =>
    match hexCharVal c1, hexCharVal c2, hexPairsDecode rest with
    | some v1, some v2, some r => some ((v1 * 16 + v2) :: r)
    | _, _, _ => none
  | _ => none

/-- Value of a hex digit string read most-significant-first; `none` when
empty or containing a non-hex character. -/
def hexStrVal : List Char → Option Nat := fun cs =>
  match cs with
  | [] => none
  | _ => go 0 cs
where
  go (acc : Nat) : List Char → Option Nat
    | [] => some acc
    | c :: rest =>
      match hexCharVal c with
      | some v => go (acc * 16 + v) rest
      | none => none

/-- A digit string with no redundant leading zero: empty or one
character, or a first character other than '0'. -/
def noLeadingZero (cs : List Char) : Bool :=
  match cs with
  | [] => true
  | [_] => true
  | c :: _ :: _ => c ≠ '0'

/- ### Python `int()` on a string (CLI hex path, `src/main.py` line 152) -/

/-- Whitespace characters stripped by Python's `int()` conversion of a
string. -/
def isPySpace (c : Char) : Bool :=
  c = ' ' ∨ c = '\t' ∨ c = '\n' ∨ c = '\x0b' ∨ c = '\x0c' ∨ c = '\r'

/-- An ASCII decimal digit. -/
def isAsciiDigit (c : Char) : Bool := 48 ≤ c.toNat ∧ c.toNat ≤ 57

/-- Numeric value of an ASCII decimal digit. -/
def digitVal (c : Char) : Nat := c.toNat - 48

/-- Remaining digits with optional single underscores between them, as
Python's `int()` accepts. -/
def pyDigitsAux (acc : Nat) : List Char → Option Nat
  | [] => some acc
  | '_' :: c :: rest =>
    if isAsciiDigit c then pyDigitsAux (acc * 10 + digitVal c) rest else none
  | '_' :: [] => none
  | c :: rest =>
    if isAsciiDigit c then pyDigitsAux (acc * 10 + digitVal c) rest else none

/-- A nonempty run of decimal digits with single underscore separators. -/
def pyDigits : List Char → Option Nat
  | [] => none
  | c :: rest => if isAsciiDigit c then pyDigitsAux (digitVal c) rest else none

/-- Embedding of Python's built-in `int()` applied to a string (for ASCII
digits): strip surrounding whitespace, optional sign, then decimal digits
with single underscore separators. -/
def pyParseInt (s : String) : Option Int :=
  let cs := ((s.data.dropWhile isPySpace).reverse.dropWhile isPySpace).reverse
  match cs with
  | '+' :: rest => (pyDigits rest).map Int.ofNat
  | '-' :: rest => (pyDigits rest).map fun n => -(Int.ofNat n)
  | _ => (pyDigits cs).map Int.ofNat

/- ### The converter (`DataTypeConverter`, `src/main.py` lines 12-122).
The class is stateless (its constructor does nothing), so each method is
embedded as a plain function on `Value`. -/

/-- A Python value as the converter sees it: an integer, a text string,
or `None` standing for any other input kind. -/
inductive Value where
  | int (n : Int)
  | str (s : String)
  | pyNone
deriving DecidableEq

/-- Whether a value is a text string (Python `isinstance(data, str)`). -/
def Value.isStr : Value → Bool
  | .str _ => true
  | _ => false

/-- A raised Python exception relevant to this program. -/
inductive PyErr where
  | typeError (msg : String)
  | valueError (msg : String)
deriving DecidableEq

/-- The message carried by an exception (its `str()` rendering). -/
def PyErr.msg : PyErr → String
  | .typeError m => m
  | .valueError m => m

/-- The string branch of `to_hex` (`src/main.py` line 41):
`data.encode('utf-8').hex()`. -/
def to_hexStr (s : String) : String := bytesToHex (utf8Encode s)

/-- `DataTypeConverter.to_hex` (`src/main.py` lines 37-43): built-in
`hex()` on an integer, UTF-8 bytes rendered as hex on a string, and a
`TypeError` otherwise.  The except-blocks at lines 44-49 only log and
re-raise, so they do not change the result. -/
def to_hex : Value → Except PyErr String
  | .int n => .ok (pyHexInt n)
  | .str s => .ok (to_hexStr s)
  | .pyNone => .error (.typeError "Input must be an integer or string.")

/-- The encoding performed by `to_base64` on a string (`src/main.py`
lines 68-70): UTF-8 bytes, base64-encoded, decoded back to text (the
final `.decode('utf-8')` of pure base64 output is the identity on the
ASCII characters produced). -/
def to_base64Str (s : String) : String := String.mk (b64EncodeList (utf8Encode s))

/-- `DataTypeConverter.to_base64` (`src/main.py` lines 51-76): a
`TypeError` on non-string input, otherwise base64 of the UTF-8 bytes.
The except-blocks at lines 71-76 only log and re-raise. -/
def to_base64 : Value → Except PyErr String
  | .str s => .ok (to_base64Str s)
  | _ => .error (.typeError "Input must be a string.")

/-- The digest computed by `to_md5` on a string (`src/main.py` lines
94-96): `hashlib.md5(data.encode('utf-8')).hexdigest()`. -/
def to_md5Str (s : String) : String := bytesToHex (md5Digest (utf8Encode s))

/-- `DataTypeConverter.to_md5` (`src/main.py` lines 78-99): a `TypeError`
on non-string input, otherwise the MD5 hex digest of the UTF-8 bytes. -/
def to_md5 : Value → Except PyErr String
  | .str s => .ok (to_md5Str s)
  | _ => .error (.typeError "Input must be a string.")

/-- A tag for one of the three conversion methods. -/
inductive MethodTag where
  | hexT
  | b64T
  | md5T
deriving DecidableEq

/-- The list `methods = [self.to_hex, self.to_base64, self.to_md5]`
(`src/main.py` line 116). -/
def methods : List MethodTag := [MethodTag.hexT, MethodTag.b64T, MethodTag.md5T]

/-- Apply the converter method named by a tag. -/
def applyMethod : MethodTag → Value → Except PyErr String
  | .hexT => to_hex
  | .b64T => to_base64
  | .md5T => to_md5

/-- `DataTypeConverter.randomly_convert` (`src/main.py` lines 101-122):
a `TypeError` on non-string input, otherwise `random.choice(methods)`
applied to the data.  `random.choice` draws a uniform index into the
three-element list; the drawn index is the explicit `choice` parameter.
The except-block at lines 120-122 only logs and re-raises. -/
def randomly_convert (choice : Fin 3) (v : Value) : Except PyErr String :=
  match v with
  | .str s => applyMethod (methods.get choice) (.str s)
  | _ => .error (.typeError "Input must be a string.")

/- ### The CLI layer (`main`, `src/main.py` lines 139-176) -/

/-- The method selector of the `-m / --method` flag. -/
inductive Method where
  | hexM
  | b64M
  | md5M
  | randomM
deriving DecidableEq

/-- The CLI hex path (`src/main.py` lines 149-154): try `int(args.data)`,
fall back to the text itself on a `ValueError`. -/
def cliHexValue (data : String) : Value :=
  match pyParseInt data with
  | some n => .int n
  | none => .str data

/-- The dispatch inside the try-block of `main` (`src/main.py` lines
148-161). -/
def tryConvert (data : String) (m : Method) (choice : Fin 3) : Except PyErr String :=
  match m with
  | .hexM => to_hex (cliHexValue data)
  | .b64M => to_base64 (.str data)
  | .md5M => to_md5 (.str data)
  | .randomM => randomly_convert choice (.str data)

/-- The observable outcome of one CLI invocation: the line printed to
standard output if any, the line printed to standard error if any, and
the process exit code. -/
structure MainResult where
  stdoutLine : Option String
  stderrLine : Option String
  exitCode : Nat
deriving DecidableEq

/-- `main` (`src/main.py` lines 139-176): on success print
`Converted data: <result>` to standard output and exit 0; on a caught
`TypeError` or `ValueError` print `Error: <message>` to standard error
and exit 1. -/
def mainRun (data : String) (m : Method) (choice : Fin 3) : MainResult :=
  match tryConvert data m choice with
  | .ok r => ⟨some ("Converted data: " ++ r), none, 0⟩
  | .error e => ⟨none, some ("Error: " ++ e.msg), 1⟩

/-- `Except` success as a Boolean. -/
def isOkB {ε α : Type} : Except ε α → Bool
  | .ok _ => true
  | .error _ => false

/- ### Helper lemmas -/

/-- The numeric bounds on a Unicode scalar value, extracted from the
`Char` invariant. -/
theorem char_toNat_valid (c : Char) :
    c.toNat < 0xD800 ∨ (0xDFFF < c.toNat ∧ c.toNat < 0x110000) := by
  have h := c.valid
  unfold UInt32.isValidChar Nat.isValidChar at h
  have h2 : c.toNat = c.val.toNat := rfl
  omega

theorem hexCharVal_hexDigit : ∀ m, m < 16 → hexCharVal (hexDigit m) = some m := by decide

theorem isLowerHex_hexDigit : ∀ m, m < 16 → isLowerHex (hexDigit m) = true := by decide

theorem hexDigit_ne_zeroChar : ∀ m, m < 16 → m ≠ 0 → hexDigit m ≠ '0' := by decide

theorem bytesToHexChars_length (bs : List Nat) :
    (bytesToHexChars bs).length = 2 * bs.length := by
  induction bs with
  | nil => rfl
  | cons b bs ih => simp [bytesToHexChars, ih]; omega

theorem bytesToHexChars_lower {bs : List Nat} (h : ∀ b ∈ bs, b < 256) :
    (bytesToHexChars bs).all isLowerHex = true := by
  induction bs with
  | nil => rfl
  | cons b bs ih =>
    have hb := h b (by simp)
    simp [bytesToHexChars, List.all_cons,
      isLowerHex_hexDigit (b / 16) (by omega), isLowerHex_hexDigit (b % 16) (by omega)]
    exact List.all_eq_true.mp (ih fun x hx => h x (by simp [hx]))

theorem hexPairsDecode_bytesToHexChars {bs : List Nat} (h : ∀ b ∈ bs, b < 256) :
    hexPairsDecode (bytesToHexChars bs) = some bs := by
  induction bs with
  | nil => rfl
  | cons b bs ih =>
    have hb := h b (by simp)
    simp [bytesToHexChars, hexPairsDecode,
      hexCharVal_hexDigit (b / 16) (by omega), hexCharVal_hexDigit (b % 16) (by omega),
      ih fun x hx => h x (by simp [hx])]
    omega

theorem utf8EncodeChar_lt (c : Char) : ∀ b ∈ utf8EncodeChar c, b < 256 := by
  intro b hb
  have hv := char_toNat_valid c
  simp only [utf8EncodeChar] at hb
  split at hb
  · simp at hb; omega
  · split at hb
    · simp at hb; rcases hb with hb | hb <;> omega
    · split at hb
      · simp at hb; rcases hb with hb | hb | hb <;> omega
      · simp at hb; rcases hb with hb | hb | hb | hb <;> omega

theorem utf8EncodeList_lt (cs : List Char) : ∀ b ∈ utf8EncodeList cs, b < 256 := by
  induction cs with
  | nil => intro b hb; simp [utf8EncodeList] at hb
  | cons c cs ih =>
    intro b hb
    simp only [utf8EncodeList, List.mem_append] at hb
    rcases hb with hb | hb
    · exact utf8EncodeChar_lt c b hb
    · exact ih b hb

theorem utf8Encode_lt (s : String) : ∀ b ∈ utf8Encode s, b < 256 :=
  utf8EncodeList_lt s.data

/- ### Claims C5 to C10 -/

/-- Claim C5: for every text string s and every possible outcome of the
random selection, randomly_convert returns a value equal to hex(s),
base64(s), or md5(s), never a value outside that three-element set. -/
theorem claim_C5 (c : Fin 3) (s : String) :
    randomly_convert c (.str s) = to_hex (.str s) ∨
    randomly_convert c (.str s) = to_base64 (.str s) ∨
    randomly_convert c (.str s) = to_md5 (.str s) := by
  fin_cases c
  · exact Or.inl rfl
  · exact Or.inr (Or.inl rfl)
  · exact Or.inr (Or.inr rfl)

/-- Claim C6: for every input that is not a text string, each of base64,
md5, and randomly_convert fails with a type error instead of returning a
result. -/
theorem claim_C6 (v : Value) (c : Fin 3) (h : v.isStr = false) :
    to_base64 v = .error (.typeError "Input must be a string.") ∧
    to_md5 v = .error (.typeError "Input must be a string.") ∧
    randomly_convert c v = .error (.typeError "Input must be a string.") := by
  cases v with
  | int n => exact ⟨rfl, rfl, rfl⟩
  | str s => simp [Value.isStr] at h
  | pyNone => exact ⟨rfl, rfl, rfl⟩

/-- Witness for claim C6 at the concrete non-string input 42. -/
theorem claim_C6_witness :
    Value.isStr (Value.int 42) = false ∧
    (to_base64 (Value.int 42) = .error (.typeError "Input must be a string.") ∧
     to_md5 (Value.int 42) = .error (.typeError "Input must be a string.") ∧
     randomly_convert 0 (Value.int 42) = .error (.typeError "Input must be a string.")) :=
  ⟨rfl, claim_C6 (Value.int 42) 0 rfl⟩

/-- Claim C7: for the hex method the CLI first attempts to interpret the
positional argument as an integer and passes the integer to the converter
when the parse succeeds, falling back to passing the text unchanged when
it fails; in particular input "42" yields "0x2a" (and non-numeric "abc"
yields its text-hex form). -/
theorem claim_C7 :
    (∀ (s : String) (c : Fin 3),
      tryConvert s Method.hexM c = .ok ((pyParseInt s).elim (to_hexStr s) pyHexInt)) ∧
    (∀ c : Fin 3, tryConvert "42" Method.hexM c = .ok "0x2a") ∧
    (∀ c : Fin 3, tryConvert "abc" Method.hexM c = .ok "616263") := by
  refine ⟨?_, ?_, ?_⟩
  · intro s c
    unfold tryConvert cliHexValue
    cases h : pyParseInt s <;> simp [h, to_hex, Option.elim]
  · intro c; rfl
  · intro c; rfl

/-- Claim C8: for every CLI invocation, when the conversion succeeds the
program prints `Converted data: <result>` to standard output and exits
with code 0, and when it fails it prints `Error: <message>` to standard
error and exits with code 1, with no output on the other stream. -/
theorem claim_C8 (d : String) (m : Method) (c : Fin 3) :
    (∃ r, tryConvert d m c = Except.ok r ∧
      mainRun d m c = ⟨some ("Converted data: " ++ r), none, 0⟩) ∨
    (∃ e, tryConvert d m c = Except.error e ∧
      mainRun d m c = ⟨none, some ("Error: " ++ e.msg), 1⟩) := by
  cases h : tryConvert d m c with
  | ok r => exact Or.inl ⟨r, rfl, by simp [mainRun, h]⟩
  | error e => exact Or.inr ⟨e, rfl, by simp [mainRun, h]⟩

/-- Claim C9: randomly_convert selects among the three methods uniformly
— under a uniform draw from the three-element choice space, each method
is selected by exactly one of the three outcomes — and applies the
selected method to the text input. -/
theorem claim_C9 :
    (∀ t : MethodTag,
      ((Finset.univ : Finset (Fin 3)).filter (fun c => methods.get c = t)).card = 1) ∧
    (∀ (c : Fin 3) (s : String),
      randomly_convert c (.str s) = applyMethod (methods.get c) (.str s)) := by
  constructor
  · intro t; cases t <;> decide
  · intro c s; rfl

/-- Claim C10: on every text string input, each of hex, base64, and md5
succeeds, so randomly_convert never fails whatever the random source
selects. -/
theorem claim_C10 (s : String) (c : Fin 3) :
    isOkB (to_hex (.str s)) = true ∧ isOkB (to_base64 (.str s)) = true ∧
    isOkB (to_md5 (.str s)) = true ∧ isOkB (randomly_convert c (.str s)) = true := by
  refine ⟨rfl, rfl, rfl, ?_⟩
  fin_cases c <;> rfl

/- ### Hex digit string lemmas for claim C1 -/

theorem hexDigitsAux_zero (fuel : Nat) : hexDigitsAux fuel 0 = [] := by
  cases fuel <;> rfl

theorem hexStrVal_go_append (l1 l2 : List Char) (acc : Nat) :
    hexStrVal.go acc (l1 ++ l2) =
      (hexStrVal.go acc l1).bind fun v => hexStrVal.go v l2 := by
  induction l1 generalizing acc with
  | nil => rfl
  | cons c l1 ih =>
    simp only [List.cons_append, hexStrVal.go]
    cases h : hexCharVal c with
    | none => rfl
    | some v => exact ih (acc * 16 + v)

theorem hexStrVal_go_hexDigitsAux :
    ∀ fuel n acc, n ≤ fuel →
      hexStrVal.go acc (hexDigitsAux fuel n) =
        some (acc * 16 ^ (hexDigitsAux fuel n).length + n) := by
  intro fuel
  induction fuel with
  | zero =>
    intro n acc h
    have : n = 0 := by omega
    subst this
    simp [hexDigitsAux, hexStrVal.go]
  | succ f ih =>
    intro n acc h
    by_cases hn : n = 0
    · subst hn; simp [hexDigitsAux, hexStrVal.go]
    · have heq : hexDigitsAux (f + 1) n = hexDigitsAux f (n / 16) ++ [hexDigit (n % 16)] := by
        simp [hexDigitsAux, hn]
      have hlt : n / 16 < n := Nat.div_lt_self (by omega) (by omega)
      have hih := ih (n / 16) acc (by omega)
      rw [heq, hexStrVal_go_append, hih]
      simp only [Option.bind_some, hexStrVal.go, hexCharVal_hexDigit (n % 16) (by omega),
        List.length_append, List.length_singleton]
      rw [pow_succ, ← Nat.mul_assoc]
      generalize acc * 16 ^ (hexDigitsAux f (n / 16)).length = A
      have := Nat.div_add_mod n 16
      simp only [Option.some_bind, Option.some.injEq]
      omega

theorem hexStrVal_natToHex (n : Nat) : hexStrVal (natToHex n).data = some n := by
  by_cases hn : n = 0
  · subst hn; rfl
  · have hne : hexDigitsAux n n ≠ [] := by
      obtain ⟨f, rfl⟩ : ∃ f, n = f + 1 := ⟨n - 1, by omega⟩
      simp [hexDigitsAux, hn]
    have hval := hexStrVal_go_hexDigitsAux n n 0 (Nat.le_refl n)
    simp only [natToHex, if_neg hn]
    cases hl : hexDigitsAux n n with
    | nil => exact absurd hl hne
    | cons d ds =>
      rw [hl] at hval
      simpa [hexStrVal] using hval

theorem hexDigitsAux_lower (fuel : Nat) :
    ∀ n, (hexDigitsAux fuel n).all isLowerHex = true := by
  induction fuel with
  | zero => intro n; rfl
  | succ f ih =>
    intro n
    by_cases hn : n = 0
    · simp [hexDigitsAux, hn]
    · simp [hexDigitsAux, hn, List.all_append, ih (n / 16),
        isLowerHex_hexDigit (n % 16) (by omega)]

theorem natToHex_lower (n : Nat) : (natToHex n).data.all isLowerHex = true := by
  by_cases hn : n = 0
  · subst hn; rfl
  · simpa [natToHex, hn] using hexDigitsAux_lower n n

theorem hexDigitsAux_head (fuel : Nat) :
    ∀ n, n ≠ 0 → n ≤ fuel → ∃ d ds, hexDigitsAux fuel n = d :: ds ∧ d ≠ '0' := by
  induction fuel with
  | zero => intro n hn h; omega
  | succ f ih =>
    intro n hn h
    by_cases h16 : n / 16 = 0
    · refine ⟨hexDigit (n % 16), [], ?_, ?_⟩
      · simp [hexDigitsAux, hn, h16, hexDigitsAux_zero]
      · exact hexDigit_ne_zeroChar (n % 16) (by omega) (by omega)
    · obtain ⟨d, ds, hd, hd0⟩ := ih (n / 16) h16 (by omega)
      exact ⟨d, ds ++ [hexDigit (n % 16)], by simp [hexDigitsAux, hn, hd], hd0⟩

theorem natToHex_noLeadingZero (n : Nat) : noLeadingZero (natToHex n).data = true := by
  by_cases hn : n = 0
  · subst hn; rfl
  · obtain ⟨d, ds, hd, hd0⟩ := hexDigitsAux_head n n hn (Nat.le_refl n)
    simp only [natToHex, if_neg hn, hd]
    cases ds with
    | nil => rfl
    | cons e es => simp [noLeadingZero, hd0]

/- ### Claim C1 -/

/-- Claim C1 counterexample: Python hex(-1) is "-0x1", whose first two
characters are not "0x", so the result of hex on a negative integer is
not the standard hex form prefixed with 0x. -/
theorem claim_C1_counterexample :
    pyHexInt (-1) = "-0x1" ∧ (pyHexInt (-1)).data.take 2 ≠ ['0', 'x'] := by
  constructor
  · rfl
  · decide

/-- Claim C1 (amended): for every integer n, hex(n) is the prefix 0x
followed by the standard lowercase hexadecimal digits of n when n ≥ 0,
and a minus sign then 0x then the digits of |n| when n < 0; the digit
string reads back as |n|, consists of lowercase hex digits only, and
carries no redundant leading zero. -/
theorem claim_C1_amended (n : Int) :
    pyHexInt n = (if n < 0 then "-0x" else "0x") ++ natToHex n.natAbs ∧
    hexStrVal (natToHex n.natAbs).data = some n.natAbs ∧
    (natToHex n.natAbs).data.all isLowerHex = true ∧
    noLeadingZero (natToHex n.natAbs).data = true := by
  refine ⟨?_, hexStrVal_natToHex _, natToHex_lower _, natToHex_noLeadingZero _⟩
  unfold pyHexInt
  split <;> rfl

/- ### Claim C3 -/

/-- Claim C3: for every text string s, hex(s) equals the contiguous
lowercase hexadecimal rendering of the UTF-8 bytes of s with no prefix
and no separator — it has two hex characters per byte, only lowercase hex
digits, and decoding the digit pairs returns exactly the UTF-8 bytes — and
in particular hex("abc") is "616263". -/
theorem claim_C3 :
    (∀ s : String, (to_hexStr s).length = 2 * (utf8Encode s).length ∧
      (to_hexStr s).data.all isLowerHex = true ∧
      hexPairsDecode (to_hexStr s).data = some (utf8Encode s)) ∧
    to_hexStr "abc" = "616263" := by
  refine ⟨fun s => ⟨?_, ?_, ?_⟩, rfl⟩
  · exact bytesToHexChars_length (utf8Encode s)
  · exact bytesToHexChars_lower (utf8Encode_lt s)
  · exact hexPairsDecode_bytesToHexChars (utf8Encode_lt s)

/- ### MD5 digest structure lemmas for claim C4 -/

theorem wordLEBytes_lt (w : Nat) : ∀ b ∈ wordLEBytes w, b < 256 := by
  intro b hb
  simp [wordLEBytes] at hb
  rcases hb with h | h | h | h <;> omega

theorem md5Digest_lt (msg : List Nat) : ∀ b ∈ md5Digest msg, b < 256 := by
  intro b hb
  simp only [md5Digest] at hb
  rcases hw : (md5Blocks (md5Pad msg).length (md5Pad msg)).foldl md5Block
      (0x67452301, 0xefcdab89, 0x98badcfe, 0x10325476) with ⟨a, b2, c, d⟩
  rw [hw] at hb
  simp only [List.append_assoc, List.mem_append] at hb
  rcases hb with h | h | h | h <;> exact wordLEBytes_lt _ b h

theorem md5Digest_length (msg : List Nat) : (md5Digest msg).length = 16 := by
  simp only [md5Digest]
  rcases hw : (md5Blocks (md5Pad msg).length (md5Pad msg)).foldl md5Block
      (0x67452301, 0xefcdab89, 0x98badcfe, 0x10325476) with ⟨a, b2, c, d⟩
  simp [wordLEBytes]

/- ### Claim C4 -/

/-- Claim C4: for every text string s, md5(s) is a 32-character string of
lowercase hexadecimal digits, md5 is a deterministic function of s, and
md5("abc") is "900150983cd24fb0d6963f7d28e17f72". -/
theorem claim_C4 :
    (∀ s : String, (to_md5Str s).length = 32 ∧
      (to_md5Str s).data.all isLowerHex = true ∧ to_md5Str s = to_md5Str s) ∧
    to_md5Str "abc" = "900150983cd24fb0d6963f7d28e17f72" := by
  refine ⟨fun s => ⟨?_, ?_, rfl⟩, by decide⟩
  · show (bytesToHexChars (md5Digest (utf8Encode s))).length = 32
    rw [bytesToHexChars_length, md5Digest_length]
  · exact bytesToHexChars_lower (md5Digest_lt _)

/- ### Base64 round-trip lemmas for claim C2 -/

theorem b64CharVal_b64Char : ∀ v, v < 64 → b64CharVal (b64Char v) = some v := by decide

theorem b64Char_ne_pad : ∀ v, v < 64 → b64Char v ≠ '=' := by decide

theorem b64DecodeList_encodeList :
    ∀ bs : List Nat, (∀ b ∈ bs, b < 256) → b64DecodeList (b64EncodeList bs) = some bs := by
  intro bs
  induction bs using b64EncodeList.induct with
  | case1 => intro _; rfl
  | case2 b1 =>
    intro h
    have h1 : b1 < 256 := h b1 (by simp)
    simp only [b64EncodeList, b64DecodeList,
      b64CharVal_b64Char (b1 / 4) (by omega), b64CharVal_b64Char (b1 % 4 * 16) (by omega)]
    simp only [if_true, and_self, Option.some.injEq, List.cons.injEq, and_true]
    omega
  | case3 b1 b2 =>
    intro h
    have h1 : b1 < 256 := h b1 (by simp)
    have h2 : b2 < 256 := h b2 (by simp)
    simp only [b64EncodeList, b64DecodeList,
      b64CharVal_b64Char (b1 / 4) (by omega),
      b64CharVal_b64Char (b1 % 4 * 16 + b2 / 16) (by omega),
      b64CharVal_b64Char (b2 % 16 * 4) (by omega)]
    rw [if_neg (b64Char_ne_pad (b2 % 16 * 4) (by omega))]
    simp only [if_true, Option.some.injEq, List.cons.injEq, and_true]
    omega
  | case4 b1 b2 b3 rest ih =>
    intro h
    have h1 : b1 < 256 := h b1 (by simp)
    have h2 : b2 < 256 := h b2 (by simp)
    have h3 : b3 < 256 := h b3 (by simp)
    have hrest := ih fun x hx => h x (by simp [hx])
    simp only [b64EncodeList, b64DecodeList,
      b64CharVal_b64Char (b1 / 4) (by omega),
      b64CharVal_b64Char (b1 % 4 * 16 + b2 / 16) (by omega),
      b64CharVal_b64Char (b2 % 16 * 4 + b3 / 64) (by omega),
      b64CharVal_b64Char (b3 % 64) (by omega)]
    rw [if_neg (b64Char_ne_pad (b2 % 16 * 4 + b3 / 64) (by omega))]
    rw [if_neg (b64Char_ne_pad (b3 % 64) (by omega))]
    rw [hrest]
    simp only [Option.some.injEq, List.cons.injEq]
    refine ⟨by omega, by omega, by omega, trivial⟩

/- ### UTF-8 round-trip lemmas for claim C2 -/

theorem utf8DecodeAux_encodeChar (c : Char) (bs : List Nat) (fuel : Nat) :
    utf8DecodeAux (fuel + 1) (utf8EncodeChar c ++ bs) =
      (utf8DecodeAux fuel bs).map (c :: ·) := by
  have hv := char_toNat_valid c
  by_cases h1 : c.toNat < 0x80
  · have he : utf8EncodeChar c = [c.toNat] := by simp [utf8EncodeChar, h1]
    rw [he, List.cons_append, List.nil_append]
    simp only [utf8DecodeAux]
    rw [if_pos h1, Char.ofNat_toNat]
  · by_cases h2 : c.toNat < 0x800
    · have he : utf8EncodeChar c = [0xC0 + c.toNat / 64, 0x80 + c.toNat % 64] := by
        simp [utf8EncodeChar, h1, h2]
      rw [he, List.cons_append, List.cons_append, List.nil_append]
      simp only [utf8DecodeAux]
      rw [if_neg (by omega), if_neg (by omega), if_pos (by omega), if_pos (by omega)]
      have hn : (0xC0 + c.toNat / 64 - 0xC0) * 64 + (0x80 + c.toNat % 64 - 0x80) = c.toNat := by
        omega
      rw [hn, if_pos (by omega), Char.ofNat_toNat]
    · by_cases h3 : c.toNat < 0x10000
      · have he : utf8EncodeChar c =
            [0xE0 + c.toNat / 4096, 0x80 + c.toNat / 64 % 64, 0x80 + c.toNat % 64] := by
          simp [utf8EncodeChar, h1, h2, h3]
        rw [he, List.cons_append, List.cons_append, List.cons_append, List.nil_append]
        simp only [utf8DecodeAux]
        rw [if_neg (by omega), if_neg (by omega), if_neg (by omega), if_pos (by omega),
          if_pos (by omega)]
        have hn : (0xE0 + c.toNat / 4096 - 0xE0) * 4096 + (0x80 + c.toNat / 64 % 64 - 0x80) * 64 +
            (0x80 + c.toNat % 64 - 0x80) = c.toNat := by omega
        rw [hn, if_pos (by omega), Char.ofNat_toNat]
      · have he : utf8EncodeChar c =
            [0xF0 + c.toNat / 262144, 0x80 + c.toNat / 4096 % 64,
             0x80 + c.toNat / 64 % 64, 0x80 + c.toNat % 64] := by
          simp [utf8EncodeChar, h1, h2, h3]
        rw [he, List.cons_append, List.cons_append, List.cons_append, List.cons_append,
          List.nil_append]
        simp only [utf8DecodeAux]
        rw [if_neg (by omega), if_neg (by omega), if_neg (by omega), if_neg (by omega),
          if_pos (by omega), if_pos (by omega)]
        have hn : (0xF0 + c.toNat / 262144 - 0xF0) * 262144 +
            (0x80 + c.toNat / 4096 % 64 - 0x80) * 4096 +
            (0x80 + c.toNat / 64 % 64 - 0x80) * 64 + (0x80 + c.toNat % 64 - 0x80) = c.toNat := by
          omega
        rw [hn, if_pos (by omega), Char.ofNat_toNat]

theorem utf8DecodeAux_nil (fuel : Nat) : utf8DecodeAux fuel [] = some [] := by
  cases fuel <;> rfl

theorem utf8DecodeAux_encodeList :
    ∀ (cs : List Char) (fuel : Nat), cs.length ≤ fuel →
      utf8DecodeAux fuel (utf8EncodeList cs) = some cs := by
  intro cs
  induction cs with
  | nil => intro fuel h; exact utf8DecodeAux_nil fuel
  | cons c cs ih =>
    intro fuel h
    cases fuel with
    | zero => simp at h
    | succ f =>
      rw [show utf8EncodeList (c :: cs) = utf8EncodeChar c ++ utf8EncodeList cs from rfl]
      rw [utf8DecodeAux_encodeChar, ih f (by simpa using h)]
      rfl

theorem utf8EncodeChar_length_pos (c : Char) : 1 ≤ (utf8EncodeChar c).length := by
  simp only [utf8EncodeChar]
  split
  · simp
  · split
    · simp
    · split <;> simp

theorem utf8EncodeList_length_ge (cs : List Char) :
    cs.length ≤ (utf8EncodeList cs).length := by
  induction cs with
  | nil => simp [utf8EncodeList]
  | cons c cs ih =>
    have h1 := utf8EncodeChar_length_pos c
    simp only [utf8EncodeList, List.length_append, List.length_cons]
    omega

theorem utf8Decode_utf8Encode (s : String) : utf8Decode (utf8Encode s) = some s := by
  unfold utf8Decode utf8Encode
  rw [utf8DecodeAux_encodeList s.data _ (utf8EncodeList_length_ge s.data)]
  rfl

/- ### Claim C2 -/

/-- Claim C2: for every text string s, decoding base64(s) with standard
base64 decoding and then UTF-8-decoding the resulting bytes yields back s
exactly (round-trip law). -/
theorem claim_C2 (s : String) :
    (b64DecodeList (to_base64Str s).data).bind utf8Decode = some s := by
  have hd : (to_base64Str s).data = b64EncodeList (utf8Encode s) := rfl
  rw [hd, b64DecodeList_encodeList _ (utf8Encode_lt s)]
  simp only [Option.some_bind]
  exact utf8Decode_utf8Encode s
